import Mathlib

/-!
Verification development for the RainbowDesktop desktop-icon hue sorter
(`src/main.py`).

The Python source is shallowly embedded below.  Operating-system facilities
(the Win32 shell and GDI calls, the filesystem, the WScript shell-link
reader and the `.url` config parser) are modelled as fields of a `World`
record: each field is the response function of the corresponding host API,
so every source function becomes a pure Lean function over a `World`.
Machine-level pixel data is modelled with `Nat` channel values and exact
rational arithmetic for the hue computation (Python floats are modelled by
`ℚ`).  Python exceptions raised by an API call are modelled by `PyResult`;
GDI resource acquisition and release are recorded in an explicit event
trace so that the resource-handling contract can be stated.
-/

namespace RD

/-- Models the content of an in-memory PNG buffer (`BytesIO`); its bytes are
never inspected by the program logic, only stored and compared, so an opaque
identifier suffices. -/
abbrev Png := Nat

/-- Result of running one Python call that may raise: either a value or a
raised exception carrying its message text. -/
inductive PyResult (α : Type) where
  | ok (val : α)
  | exc (msg : String)
deriving DecidableEq

/-- `true` exactly on a raised exception. -/
def isExc {α : Type} : PyResult α → Bool
  | PyResult.ok _ => false
  | PyResult.exc _ => true

/-- GDI resource events of `extract_icon_from_file` / `create_icon_bitmap`:
acquisitions (ExtractIconEx, GetDC, CreateCompatibleDC,
CreateCompatibleBitmap) and releases (DeleteObject, DeleteDC, ReleaseDC,
DestroyIcon). -/
inductive Ev where
  | acquireIcon (h : Nat)
  | acquireDC (h : Nat)
  | acquireMemDC (h : Nat)
  | acquireBitmap (h : Nat)
  | releaseBitmap (h : Nat)
  | releaseMemDC (h : Nat)
  | releaseDC (h : Nat)
  | releaseIcon (h : Nat)
deriving DecidableEq

/-- `true` on the release events. -/
def isRelease : Ev → Bool
  | Ev.releaseBitmap _ => true
  | Ev.releaseMemDC _ => true
  | Ev.releaseDC _ => true
  | Ev.releaseIcon _ => true
  | _ => false

/-- The two fields of a WScript shell link object that the source reads
(`shortcut.IconLocation` and `shortcut.TargetPath`). -/
structure ShellLink where
  iconLocation : String
  targetPath : String
deriving DecidableEq

/-- The host environment: one field per OS facility the script calls.
`urlIcon` models `configparser` reading a `.url` file: `none` means the file
has no `InternetShortcut` section, `some none` means the section exists but
has no `IconFile` key, and `some (some p)` means `IconFile` is `p`. -/
structure World where
  /-- `win32gui.ExtractIconEx(path, 0)`: (large icon handles, small icon handles). -/
  extractIconEx : String → List Nat × List Nat
  /-- `win32gui.GetDC(0)`. -/
  screenDC : Nat
  /-- `win32gui.CreateCompatibleDC(dc)`. -/
  memDCOf : Nat → Nat
  /-- `win32gui.CreateCompatibleBitmap(dc, w, h)`. -/
  bitmapOf : Nat → Nat
  /-- whether `win32gui.DrawIconEx` raises for this icon handle. -/
  drawFails : Nat → Bool
  /-- exception text of a failing `DrawIconEx`. -/
  drawMsg : String
  /-- whether `GetBitmapBits` raises for this bitmap handle. -/
  bitsFail : Nat → Bool
  /-- exception text of a failing `GetBitmapBits`. -/
  bitsMsg : String
  /-- the decoded pixel image produced from a bitmap handle
  (`CreateBitmapFromHandle` + `Image.frombuffer`). -/
  imageOf : Nat → Nat
  /-- PNG encoding of a decoded image (`image.save(png_data, "PNG")`). -/
  pngOf : Nat → Png
  /-- `os.path.exists`. -/
  pathExists : String → Bool
  /-- `WScript.Shell.CreateShortCut` on a `.lnk` path. -/
  link : String → ShellLink
  /-- `configparser` view of a `.url` file, see above. -/
  urlIcon : String → Option (Option String)
  /-- `os.environ["USERPROFILE"]`. -/
  userProfile : String
  /-- `os.environ["PUBLIC"]`. -/
  publicDir : String
  /-- `os.listdir` of the user desktop directory. -/
  listUser : List String
  /-- `os.listdir` of the public desktop directory. -/
  listPublic : List String

/-- Python `str.endswith`: suffix test on the character sequence. -/
def endswith (s suf : String) : Bool := suf.data.isSuffixOf s.data

/-- Character-list worker for Python `str.partition(",")`: returns the parts
before and after the first comma, or `none` when no comma occurs. -/
def partCh : List Char → Option (List Char × List Char)
  | [] => none
  | c :: cs =>
    if c = ',' then some ([], cs)
    else
      match partCh cs with
      | some (a, b) => some (c :: a, b)
      | none => none

/-- Python `s.partition(",")`, keeping the text before and after the first
comma (the separator itself is dropped, as in the source which ignores the
middle component). When there is no comma the first component is `s` and the
second is empty. -/
def partitionComma (s : String) : String × String :=
  match partCh s.data with
  | some (a, b) => (String.mk a, String.mk b)
  | none => (s, "")

/-- Python `str.isdigit` (ASCII digits): nonempty and all digits. -/
def isdigitStr (s : String) : Bool := !s.data.isEmpty && s.data.all Char.isDigit

/-- `os.path.join` under Windows separators. -/
def joinPath (d f : String) : String := d ++ "\\" ++ f

/-- The text printed by the per-file exception guard:
`f"Error processing {path}: {e}"`. -/
def pyError (path msg : String) : String :=
  "Error processing " ++ path ++ ": " ++ msg

/-! ## Icon extraction pipeline -/

/-- `get_icon_handle`:
`large_icons[0] if large_icons else (small_icons[0] if small_icons else None)`. -/
def get_icon_handle (w : World) (exe_path : String) : Option Nat :=
  match w.extractIconEx exe_path with
  | (h :: _, _) => some h
  | ([], h :: _) => some h
  | ([], []) => none

/-- `create_icon_bitmap`: acquires the screen DC, a memory DC and a
compatible bitmap, then draws the icon (`DrawIconEx`, which may raise).
Returns `(mem_dc, bitmap, dc_handle)` as the source does, paired with the
acquisition trace. -/
def create_icon_bitmap (w : World) (icon_handle : Nat) :
    PyResult (Nat × Nat × Nat) × List Ev :=
  let dc_handle := w.screenDC
  let mem_dc := w.memDCOf dc_handle
  let bitmap := w.bitmapOf dc_handle
  let evs := [Ev.acquireDC dc_handle, Ev.acquireMemDC mem_dc, Ev.acquireBitmap bitmap]
  if w.drawFails icon_handle then (PyResult.exc w.drawMsg, evs)
  else (PyResult.ok (mem_dc, bitmap, dc_handle), evs)

/-- `convert_bitmap_to_image`: reads the bitmap bits (`GetBitmapBits`, which
may raise) and decodes them to an image. -/
def convert_bitmap_to_image (w : World) (bitmap : Nat) : PyResult Nat :=
  if w.bitsFail bitmap then PyResult.exc w.bitsMsg
  else PyResult.ok (w.imageOf bitmap)

/-- `extract_icon_from_file`: resolve the icon handle, draw it into a bitmap,
convert to an image, then (on the success path only — the source has no
`try`/`finally`) release bitmap, memory DC, screen DC and icon handle, and
PNG-encode the image.  The second component is the resource-event trace of
the call. -/
def extract_icon_from_file (w : World) (exe_path : String) :
    PyResult (Option Png) × List Ev :=
  match get_icon_handle w exe_path with
  | none => (PyResult.ok none, [])
  | some icon_handle =>
    let ev0 := [Ev.acquireIcon icon_handle]
    match create_icon_bitmap w icon_handle with
    | (PyResult.exc m, evs) => (PyResult.exc m, ev0 ++ evs)
    | (PyResult.ok (mem_dc, bitmap, dc_handle), evs) =>
      match convert_bitmap_to_image w bitmap with
      | PyResult.exc m => (PyResult.exc m, ev0 ++ evs)
      | PyResult.ok image =>
        (PyResult.ok (some (w.pngOf image)),
          ev0 ++ evs ++
            [Ev.releaseBitmap bitmap, Ev.releaseMemDC mem_dc,
             Ev.releaseDC dc_handle, Ev.releaseIcon icon_handle])

/-- The icon path a `.lnk` resolves to: the part of `IconLocation` before the
first comma, falling back to `TargetPath` when that part is empty. -/
def resolvedIconPath (w : World) (shortcut_path : String) : String :=
  let icon_path := (partitionComma (w.link shortcut_path).iconLocation).1
  if icon_path = "" then (w.link shortcut_path).targetPath else icon_path

/-- `icon_index = int(icon_index) if icon_index.isdigit() else 0` applied to
the part of the icon location after the first comma. -/
def parseIconIndex (icon_location : String) : Nat :=
  let icon_index := (partitionComma icon_location).2
  if isdigitStr icon_index then icon_index.toNat?.getD 0 else 0

/-- `extract_icon_from_shortcut`: resolve the declared icon location (with
target-path fallback), parse the icon index (which the source never uses),
and delegate to `extract_icon_from_file` when the resolved path exists. -/
def extract_icon_from_shortcut (w : World) (shortcut_path : String) :
    PyResult (Option Png) × List Ev :=
  let icon_path := resolvedIconPath w shortcut_path
  let _icon_index := parseIconIndex (w.link shortcut_path).iconLocation
  if w.pathExists icon_path then extract_icon_from_file w icon_path
  else (PyResult.ok none, [])

/-- `extract_icon_from_url`: if the parsed file has an `InternetShortcut`
section with an `IconFile` whose path exists, delegate to
`extract_icon_from_file`; otherwise no icon. -/
def extract_icon_from_url (w : World) (url_path : String) :
    PyResult (Option Png) × List Ev :=
  match w.urlIcon url_path with
  | some (some icon_path) =>
    if w.pathExists icon_path then extract_icon_from_file w icon_path
    else (PyResult.ok none, [])
  | _ => (PyResult.ok none, [])

/-! ## The scanning loop (`get_icons`) -/

/-- State threaded through the `get_icons` loop: the icon dictionary
(insertion-ordered, unique keys, as a Python `dict`), the unsortable list,
the lines printed by the exception guard, and an instrumentation trace of
every path that passed the existence check (one entry per processing). -/
structure RunState where
  icons : List (String × Png)
  unsortable : List String
  log : List String
  processed : List String
deriving DecidableEq

/-- Python `dict` assignment `m[k] = v`: update in place if the key is
present (keeping its position), else append. -/
def dictInsert : List (String × Png) → String → Png → List (String × Png)
  | [], k, v => [(k, v)]
  | (k0, v0) :: t, k, v =>
    if k0 = k then (k0, v) :: t else (k0, v0) :: dictInsert t k v

/-- Python `dict` lookup. -/
def dlookup : List (String × Png) → String → Option Png
  | [], _ => none
  | (k0, v0) :: t, k => if k0 = k then some v0 else dlookup t k

/-- `os.path.join(os.environ["USERPROFILE"], "Desktop")`. -/
def user_desktop (w : World) : String := joinPath w.userProfile "Desktop"

/-- `os.path.join(os.environ["PUBLIC"], "Desktop")`. -/
def public_desktop (w : World) : String := joinPath w.publicDir "Desktop"

/-- The inner loop list `[user_desktop, public_desktop]`. -/
def desktops (w : World) : List String := [user_desktop w, public_desktop w]

/-- The combined listing `os.listdir(user_desktop) + os.listdir(public_desktop)`. -/
def files (w : World) : List String := w.listUser ++ w.listPublic

/-- One iteration of the inner loop of `get_icons` for a directory and file
name: skip when the joined path does not exist, otherwise dispatch on the
`.lnk` / `.url` / other suffix, with the `try`/`except` guard turning a
raised exception into a printed line. -/
def processOne (w : World) (st : RunState) (desktop file : String) : RunState :=
  let path := joinPath desktop file
  if w.pathExists path = false then st
  else
    let st1 := { st with processed := st.processed ++ [path] }
    if endswith file ".lnk" then
      match (extract_icon_from_shortcut w path).1 with
      | PyResult.exc m => { st1 with log := st1.log ++ [pyError path m] }
      | PyResult.ok none => st1
      | PyResult.ok (some img) => { st1 with icons := dictInsert st1.icons path img }
    else if endswith file ".url" then
      match (extract_icon_from_url w path).1 with
      | PyResult.exc m => { st1 with log := st1.log ++ [pyError path m] }
      | PyResult.ok none => st1
      | PyResult.ok (some img) => { st1 with icons := dictInsert st1.icons path img }
    else
      if endswith path "desktop.ini" then st1
      else { st1 with unsortable := st1.unsortable ++ [path] }

/-- The double loop of `get_icons`: for each file name, process it once per
desktop directory. -/
def runFiles (w : World) (st : RunState) (fs : List String) : RunState :=
  fs.foldl (fun s f => (desktops w).foldl (fun s2 d => processOne w s2 d f) s) st

/-- Initial loop state (`icons = {}`, `unsortable = []`). -/
def initState : RunState := ⟨[], [], [], []⟩

/-- `get_icons`. -/
def get_icons (w : World) : RunState := runFiles w initState (files w)

/-! ## Hue analysis and sorting -/

/-- An RGB triple with 0–255 channel values. -/
abbrev Rgb := Nat × Nat × Nat

/-- A decoded raster image as rows of RGB pixels (the `img.convert("RGB")`
normalisation of the source makes every image three-channel before any
pixel is read, so the model keeps RGB pixels directly). -/
abbrev Img := List (List Rgb)

/-- All pixels of an image. -/
def pixels (img : Img) : List Rgb := img.flatMap id

/-- Number of pixels. -/
def pixelCount (img : Img) : Nat := (pixels img).length

/-- Channel average over the whole image in exact arithmetic, modelling the
area-average `img.resize((1, 1))` for one channel. -/
def avgCh (img : Img) (ch : Rgb → Nat) : ℚ :=
  ((pixels img).map (fun c => (ch c : ℚ))).sum / (pixelCount img : ℚ)

/-- The hue component of `colorsys.rgb_to_hsv`, over exact rationals:
grayscale inputs return 0, otherwise the standard piecewise formula followed
by the Python `% 1.0` wrap (`Int.fract`). -/
def rgbToHsvHue (r g b : ℚ) : ℚ :=
  let maxc := max r (max g b)
  let minc := min r (min g b)
  if minc = maxc then 0
  else
    let rangec := maxc - minc
    let rc := (maxc - r) / rangec
    let gc := (maxc - g) / rangec
    let bc := (maxc - b) / rangec
    let h := if r = maxc then bc - gc
             else if g = maxc then 2 + rc - bc
             else 4 + gc - rc
    Int.fract (h / 6)

/-- `get_average_hue`: average the image down to one pixel, then take the
hue component of the HSV conversion of that pixel. -/
def get_average_hue (img : Img) : ℚ :=
  rgbToHsvHue (avgCh img (fun c => c.1)) (avgCh img (fun c => c.2.1))
    (avgCh img (fun c => c.2.2))

/-- `sort_icons_by_color`: Python `sorted(icons.items(), key=...)` is a
stable sort on the hue key, modelled by `List.mergeSort` with the
non-strict hue comparison. -/
def sort_icons_by_color (icons : List (String × Img)) : List (String × Img) :=
  icons.mergeSort (fun a b => decide (get_average_hue a.2 ≤ get_average_hue b.2))

/-! ## Characterisation of one loop iteration

`stepIcon`, `stepUnsortable`, `stepLog` state which (if any) catalog value,
unsortable entry and log line one iteration of the loop body contributes
for a given file name and joined path; `processOne_eq` proves that the loop
body is described exactly by them. -/

/-- The catalog value (if any) the iteration inserts at `path`. -/
def stepIcon (w : World) (file path : String) : Option Png :=
  if w.pathExists path = false then none
  else if endswith file ".lnk" then
    match (extract_icon_from_shortcut w path).1 with
    | PyResult.ok (some img) => some img
    | _ => none
  else if endswith file ".url" then
    match (extract_icon_from_url w path).1 with
    | PyResult.ok (some img) => some img
    | _ => none
  else none

/-- Whether the iteration appends `path` to the unsortable list. -/
def stepUnsortable (w : World) (file path : String) : Bool :=
  w.pathExists path && !endswith file ".lnk" && !endswith file ".url" &&
    !endswith path "desktop.ini"

/-- The log line (if any) the iteration prints. -/
def stepLog (w : World) (file path : String) : Option String :=
  if w.pathExists path = false then none
  else if endswith file ".lnk" then
    match (extract_icon_from_shortcut w path).1 with
    | PyResult.exc m => some (pyError path m)
    | _ => none
  else if endswith file ".url" then
    match (extract_icon_from_url w path).1 with
    | PyResult.exc m => some (pyError path m)
    | _ => none
  else none

theorem processOne_eq (w : World) (st : RunState) (d f : String) :
    processOne w st d f =
      { icons :=
          match stepIcon w f (joinPath d f) with
          | some v => dictInsert st.icons (joinPath d f) v
          | none => st.icons,
        unsortable :=
          if stepUnsortable w f (joinPath d f) then
            st.unsortable ++ [joinPath d f]
          else st.unsortable,
        log :=
          st.log ++
            (match stepLog w f (joinPath d f) with
             | some m => [m]
             | none => []),
        processed :=
          st.processed ++
            (if w.pathExists (joinPath d f) = false then [] else [joinPath d f]) } := by
  unfold processOne stepIcon stepUnsortable stepLog
  cases hex : w.pathExists (joinPath d f) with
  | false => simp [hex]
  | true =>
    simp only [hex, Bool.true_eq_false, if_false, Bool.true_and]
    cases hlnk : endswith f ".lnk" with
    | true =>
      simp only [hlnk, if_true]
      cases hres : (extract_icon_from_shortcut w (joinPath d f)).1 with
      | ok v => cases v <;> simp [hex, hlnk, hres]
      | exc m => simp [hex, hlnk, hres]
    | false =>
      simp only [hlnk, Bool.false_eq_true, if_false, Bool.not_false, Bool.true_and]
      cases hurl : endswith f ".url" with
      | true =>
        simp only [hurl, if_true]
        cases hres : (extract_icon_from_url w (joinPath d f)).1 with
        | ok v => cases v <;> simp [hex, hlnk, hurl, hres]
        | exc m => simp [hex, hlnk, hurl, hres]
      | false =>
        simp only [hurl, Bool.false_eq_true, if_false, Bool.not_false, Bool.true_and]
        cases hini : endswith (joinPath d f) "desktop.ini" <;>
          simp [hex, hlnk, hurl, hini]

/-! ## Dictionary lemmas -/

theorem dlookup_dictInsert (m : List (String × Png)) (k : String) (v : Png)
    (p : String) :
    dlookup (dictInsert m k v) p = if k = p then some v else dlookup m p := by
  induction m with
  | nil =>
    by_cases h : k = p <;> simp [dictInsert, dlookup, h]
  | cons hd t ih =>
    obtain ⟨k0, v0⟩ := hd
    by_cases h0 : k0 = k
    · subst h0
      by_cases h : k0 = p <;> simp [dictInsert, dlookup, h]
    · by_cases h : k0 = p
      · subst h
        have hkp : ¬ k = k0 := fun hh => h0 hh.symm
        simp [dictInsert, dlookup, h0, hkp]
      · simp [dictInsert, dlookup, h0, h, ih]

theorem mem_keys_dictInsert (m : List (String × Png)) (k : String) (v : Png)
    (p : String) (hp : p ∈ (dictInsert m k v).map Prod.fst) :
    p ∈ m.map Prod.fst ∨ p = k := by
  induction m with
  | nil => simp [dictInsert] at hp; simp [hp]
  | cons hd t ih =>
    obtain ⟨k0, v0⟩ := hd
    by_cases h0 : k0 = k
    · simp [dictInsert, h0] at hp
      rcases hp with hp | hp
      · exact Or.inr (h0 ▸ hp)
      · exact Or.inl (by simp [hp])
    · simp [dictInsert, h0] at hp
      rcases hp with hp | hp
      · exact Or.inl (by simp [hp])
      · replace hp : p ∈ (dictInsert t k v).map Prod.fst := by simpa using hp
        rcases ih hp with hh | hh
        · exact Or.inl (by simp at hh ⊢; exact Or.inr hh)
        · exact Or.inr hh

/-! ## Loop lemmas -/

theorem runFiles_nil (w : World) (st : RunState) : runFiles w st [] = st := rfl

theorem runFiles_cons (w : World) (st : RunState) (f : String)
    (fs : List String) :
    runFiles w st (f :: fs) =
      runFiles w
        (processOne w (processOne w st (user_desktop w) f) (public_desktop w) f)
        fs := rfl

theorem processOne_dlookup_none (w : World) (st : RunState) (d f p : String)
    (h0 : dlookup st.icons p = none)
    (H : joinPath d f = p → stepIcon w f p = none) :
    dlookup (processOne w st d f).icons p = none := by
  rw [processOne_eq]
  cases hstep : stepIcon w f (joinPath d f) with
  | none => simpa using h0
  | some v =>
    by_cases hj : joinPath d f = p
    · rw [hj] at hstep; rw [H hj] at hstep; cases hstep
    · simp only [dlookup_dictInsert]
      simp [hj, h0]

theorem processOne_unsortable_not_mem (w : World) (st : RunState)
    (d f p : String) (h0 : p ∉ st.unsortable)
    (H : joinPath d f = p → stepUnsortable w f p = false) :
    p ∉ (processOne w st d f).unsortable := by
  rw [processOne_eq]
  cases hstep : stepUnsortable w f (joinPath d f) with
  | false => simpa using h0
  | true =>
    by_cases hj : joinPath d f = p
    · rw [hj] at hstep; rw [H hj] at hstep; cases hstep
    · simp only [if_true]
      intro hmem
      rcases List.mem_append.1 hmem with hmem | hmem
      · exact h0 hmem
      · simp at hmem; exact hj hmem.symm

theorem processOne_keys_sub (w : World) (st : RunState) (d f k : String)
    (hk : k ∈ (processOne w st d f).icons.map Prod.fst) :
    k ∈ st.icons.map Prod.fst ∨
      (k = joinPath d f ∧ stepIcon w f k ≠ none) := by
  rw [processOne_eq] at hk
  cases hstep : stepIcon w f (joinPath d f) with
  | none => rw [hstep] at hk; exact Or.inl hk
  | some v =>
    rw [hstep] at hk
    rcases mem_keys_dictInsert _ _ _ _ hk with hh | hh
    · exact Or.inl hh
    · refine Or.inr ⟨hh, ?_⟩
      rw [hh, hstep]
      simp

theorem processOne_unsortable_sub (w : World) (st : RunState) (d f q : String)
    (hq : q ∈ (processOne w st d f).unsortable) :
    q ∈ st.unsortable ∨
      (q = joinPath d f ∧ stepUnsortable w f q = true) := by
  rw [processOne_eq] at hq
  cases hstep : stepUnsortable w f (joinPath d f) with
  | false => rw [hstep] at hq; exact Or.inl (by simpa using hq)
  | true =>
    rw [hstep] at hq
    simp only [if_true] at hq
    rcases List.mem_append.1 hq with hh | hh
    · exact Or.inl hh
    · simp at hh
      exact Or.inr ⟨hh, hh ▸ hstep⟩

theorem processOne_log_mono (w : World) (st : RunState) (d f : String)
    (x : String) (hx : x ∈ st.log) : x ∈ (processOne w st d f).log := by
  rw [processOne_eq]
  exact List.mem_append.2 (Or.inl hx)

theorem processOne_log_adds (w : World) (st : RunState) (d f m : String)
    (h : stepLog w f (joinPath d f) = some m) :
    m ∈ (processOne w st d f).log := by
  rw [processOne_eq, h]
  exact List.mem_append.2 (Or.inr (by simp))

theorem runFiles_dlookup_none (w : World) (fs : List String) (st : RunState)
    (p : String) (h0 : dlookup st.icons p = none)
    (H : ∀ f ∈ fs, ∀ d ∈ desktops w, joinPath d f = p → stepIcon w f p = none) :
    dlookup (runFiles w st fs).icons p = none := by
  induction fs generalizing st with
  | nil => simpa [runFiles_nil] using h0
  | cons f fs ih =>
    rw [runFiles_cons]
    refine ih _ ?_ ?_
    · refine processOne_dlookup_none _ _ _ _ _
        (processOne_dlookup_none _ _ _ _ _ h0 ?_) ?_
      · exact H f (by simp) (user_desktop w) (by simp [desktops])
      · exact H f (by simp) (public_desktop w) (by simp [desktops])
    · intro g hg d hd
      exact H g (by simp [hg]) d hd

theorem runFiles_unsortable_not_mem (w : World) (fs : List String)
    (st : RunState) (p : String) (h0 : p ∉ st.unsortable)
    (H : ∀ f ∈ fs, ∀ d ∈ desktops w,
      joinPath d f = p → stepUnsortable w f p = false) :
    p ∉ (runFiles w st fs).unsortable := by
  induction fs generalizing st with
  | nil => simpa [runFiles_nil] using h0
  | cons f fs ih =>
    rw [runFiles_cons]
    refine ih _ ?_ ?_
    · refine processOne_unsortable_not_mem _ _ _ _ _
        (processOne_unsortable_not_mem _ _ _ _ _ h0 ?_) ?_
      · exact H f (by simp) (user_desktop w) (by simp [desktops])
      · exact H f (by simp) (public_desktop w) (by simp [desktops])
    · intro g hg d hd
      exact H g (by simp [hg]) d hd

theorem runFiles_keys_sub (w : World) (fs : List String) (st : RunState)
    (k : String) (hk : k ∈ (runFiles w st fs).icons.map Prod.fst) :
    k ∈ st.icons.map Prod.fst ∨
      ∃ f ∈ fs, ∃ d ∈ desktops w, k = joinPath d f ∧ stepIcon w f k ≠ none := by
  induction fs generalizing st with
  | nil => exact Or.inl (by simpa [runFiles_nil] using hk)
  | cons f fs ih =>
    rw [runFiles_cons] at hk
    rcases ih _ hk with hh | hh
    · rcases processOne_keys_sub _ _ _ _ _ hh with hh2 | hh2
      · rcases processOne_keys_sub _ _ _ _ _ hh2 with hh3 | hh3
        · exact Or.inl hh3
        · exact Or.inr ⟨f, by simp, user_desktop w, by simp [desktops], hh3⟩
      · exact Or.inr ⟨f, by simp, public_desktop w, by simp [desktops], hh2⟩
    · obtain ⟨g, hg, d, hd, hrest⟩ := hh
      exact Or.inr ⟨g, by simp [hg], d, hd, hrest⟩

theorem runFiles_unsortable_sub (w : World) (fs : List String) (st : RunState)
    (q : String) (hq : q ∈ (runFiles w st fs).unsortable) :
    q ∈ st.unsortable ∨
      ∃ f ∈ fs, ∃ d ∈ desktops w,
        q = joinPath d f ∧ stepUnsortable w f q = true := by
  induction fs generalizing st with
  | nil => exact Or.inl (by simpa [runFiles_nil] using hq)
  | cons f fs ih =>
    rw [runFiles_cons] at hq
    rcases ih _ hq with hh | hh
    · rcases processOne_unsortable_sub _ _ _ _ _ hh with hh2 | hh2
      · rcases processOne_unsortable_sub _ _ _ _ _ hh2 with hh3 | hh3
        · exact Or.inl hh3
        · exact Or.inr ⟨f, by simp, user_desktop w, by simp [desktops], hh3⟩
      · exact Or.inr ⟨f, by simp, public_desktop w, by simp [desktops], hh2⟩
    · obtain ⟨g, hg, d, hd, hrest⟩ := hh
      exact Or.inr ⟨g, by simp [hg], d, hd, hrest⟩

theorem runFiles_log_mono (w : World) (fs : List String) (st : RunState)
    (x : String) (hx : x ∈ st.log) : x ∈ (runFiles w st fs).log := by
  induction fs generalizing st with
  | nil => simpa [runFiles_nil] using hx
  | cons f fs ih =>
    rw [runFiles_cons]
    exact ih _ (processOne_log_mono _ _ _ _ _ (processOne_log_mono _ _ _ _ _ hx))

theorem runFiles_log_of_occur (w : World) (fs : List String) (st : RunState)
    (f d m : String) (hf : f ∈ fs) (hd : d ∈ desktops w)
    (hlog : stepLog w f (joinPath d f) = some m) :
    m ∈ (runFiles w st fs).log := by
  induction fs generalizing st with
  | nil => cases hf
  | cons g fs ih =>
    rw [runFiles_cons]
    rcases List.mem_cons.1 hf with hf | hf
    · subst hf
      apply runFiles_log_mono
      have hd2 : d = user_desktop w ∨ d = public_desktop w := by
        simpa [desktops] using hd
      rcases hd2 with hd2 | hd2
      · subst hd2
        exact processOne_log_mono _ _ _ _ _ (processOne_log_adds _ _ _ _ _ hlog)
      · subst hd2
        exact processOne_log_adds _ _ _ _ _ hlog
    · exact ih _ hf

/-- The sequence of paths probed successfully (existence check passed) when
scanning a list of file names: for each name in order, the user-desktop path
then the public-desktop path, keeping only existing ones. -/
def probes (w : World) : List String → List String
  | [] => []
  | f :: fs =>
    ((desktops w).filterMap fun d =>
      if w.pathExists (joinPath d f) = false then none else some (joinPath d f)) ++
      probes w fs

theorem processOne_processed (w : World) (st : RunState) (d f : String) :
    (processOne w st d f).processed =
      st.processed ++
        (if w.pathExists (joinPath d f) = false then [] else [joinPath d f]) := by
  rw [processOne_eq]

theorem runFiles_processed (w : World) (fs : List String) (st : RunState) :
    (runFiles w st fs).processed = st.processed ++ probes w fs := by
  induction fs generalizing st with
  | nil => simp [runFiles_nil, probes]
  | cons f fs ih =>
    rw [runFiles_cons, ih, processOne_processed, processOne_processed]
    simp only [probes, desktops, List.filterMap_cons, List.filterMap_nil]
    cases hu : w.pathExists (joinPath (user_desktop w) f) <;>
      cases hp : w.pathExists (joinPath (public_desktop w) f) <;>
        simp [hu, hp]

theorem probes_exists (w : World) (fs : List String) (q : String)
    (hq : q ∈ probes w fs) : w.pathExists q = true := by
  induction fs with
  | nil => cases hq
  | cons f fs ih =>
    simp only [probes] at hq
    rcases List.mem_append.1 hq with hh | hh
    · rcases List.mem_filterMap.1 hh with ⟨d, _, hd2⟩
      by_cases hex : w.pathExists (joinPath d f) = false
      · simp [hex] at hd2
      · simp [hex] at hd2
        subst hd2
        cases hcc : w.pathExists (joinPath d f)
        · exact absurd hcc hex
        · rfl
    · exact ih hh

/-! ## Path-join injectivity and catalog-key uniqueness -/

theorem append_cons_inj {α : Type} (a : α) :
    ∀ (l1 l2 t1 t2 : List α), l1 ++ a :: t1 = l2 ++ a :: t2 →
      a ∉ l1 → a ∉ l2 → l1 = l2 ∧ t1 = t2 := by
  intro l1
  induction l1 with
  | nil =>
    intro l2 t1 t2 h h1 h2
    cases l2 with
    | nil => simpa using h
    | cons b l2 =>
      simp only [List.nil_append, List.cons_append, List.cons.injEq] at h
      exact absurd (by simp [h.1]) h2
  | cons c l1 ih =>
    intro l2 t1 t2 h h1 h2
    cases l2 with
    | nil =>
      simp only [List.cons_append, List.nil_append, List.cons.injEq] at h
      exact absurd (by simp [h.1.symm]) h1
    | cons b l2 =>
      simp only [List.cons_append, List.cons.injEq] at h
      obtain ⟨hcb, h3⟩ := h
      have h4 := ih l2 t1 t2 h3
        (fun hm => h1 (List.mem_cons_of_mem c hm))
        (fun hm => h2 (List.mem_cons_of_mem b hm))
      exact ⟨by rw [hcb, h4.1], h4.2⟩

/-- `os.path.join` is injective on (directory, separator-free name) pairs:
directory-listing entries never contain the separator, so distinct
directories or distinct names give distinct joined paths. -/
theorem joinPath_inj (d1 d2 f g : String)
    (hf : ('\\' : Char) ∉ f.data) (hg : ('\\' : Char) ∉ g.data)
    (h : joinPath d1 f = joinPath d2 g) : d1 = d2 ∧ f = g := by
  have hbs : ("\\" : String).data = ['\\'] := rfl
  have hdata : d1.data ++ '\\' :: f.data = d2.data ++ '\\' :: g.data := by
    have h2 := congrArg String.data h
    simp only [joinPath, String.data_append, hbs] at h2
    simpa [List.append_assoc] using h2
  have hrev : f.data.reverse ++ '\\' :: d1.data.reverse =
      g.data.reverse ++ '\\' :: d2.data.reverse := by
    have h2 := congrArg List.reverse hdata
    simpa [List.reverse_append, List.append_assoc] using h2
  have h5 := append_cons_inj '\\' _ _ _ _ hrev (by simpa using hf) (by simpa using hg)
  constructor
  · exact String.ext (List.reverse_inj.1 h5.2)
  · exact String.ext (List.reverse_inj.1 h5.1)

theorem keys_nodup_dictInsert (m : List (String × Png)) (k : String) (v : Png)
    (h : (m.map Prod.fst).Nodup) : ((dictInsert m k v).map Prod.fst).Nodup := by
  induction m with
  | nil => simp [dictInsert]
  | cons hd t ih =>
    obtain ⟨k0, v0⟩ := hd
    by_cases h0 : k0 = k
    · simpa [dictInsert, h0] using h
    · simp only [List.map_cons, List.nodup_cons] at h
      simp only [dictInsert, h0, if_false, List.map_cons, List.nodup_cons]
      refine ⟨?_, ih h.2⟩
      intro hmem
      rcases mem_keys_dictInsert t k v k0 hmem with hh | hh
      · exact h.1 hh
      · exact h0 hh

theorem processOne_keys_nodup (w : World) (st : RunState) (d f : String)
    (h : (st.icons.map Prod.fst).Nodup) :
    ((processOne w st d f).icons.map Prod.fst).Nodup := by
  rw [processOne_eq]
  cases hstep : stepIcon w f (joinPath d f) with
  | none => simpa using h
  | some v => exact keys_nodup_dictInsert _ _ _ h

theorem runFiles_keys_nodup (w : World) (fs : List String) (st : RunState)
    (h : (st.icons.map Prod.fst).Nodup) :
    ((runFiles w st fs).icons.map Prod.fst).Nodup := by
  induction fs generalizing st with
  | nil => simpa [runFiles_nil] using h
  | cons f fs ih =>
    rw [runFiles_cons]
    exact ih _ (processOne_keys_nodup _ _ _ _ (processOne_keys_nodup _ _ _ _ h))

/-- Counting occurrences of the user-desktop path of a separator-free name
in the probe trace: each occurrence of the name in the listing contributes
exactly one processing of that path when it exists. -/
theorem count_probes_user (w : World) (fs : List String) (f : String)
    (hne : user_desktop w ≠ public_desktop w)
    (hnb : ∀ g ∈ fs, ('\\' : Char) ∉ g.data)
    (hf : ('\\' : Char) ∉ f.data)
    (hu : w.pathExists (joinPath (user_desktop w) f) = true) :
    (probes w fs).count (joinPath (user_desktop w) f) = fs.count f := by
  induction fs with
  | nil => simp [probes]
  | cons g fs ih =>
    have hng : ('\\' : Char) ∉ g.data := hnb g (by simp)
    have ihh := ih (fun x hx => hnb x (by simp [hx]))
    have hpub : joinPath (public_desktop w) g ≠ joinPath (user_desktop w) f := by
      intro hcc
      exact hne ((joinPath_inj _ _ _ _ hng hf hcc).1).symm
    simp only [probes, desktops, List.filterMap_cons, List.filterMap_nil]
    by_cases hgf : g = f
    · subst hgf
      cases hpe : w.pathExists (joinPath (public_desktop w) g) <;>
        simp [hu, hpe, List.count_append, List.count_cons, ihh, hpub]
    · have hug : joinPath (user_desktop w) g ≠ joinPath (user_desktop w) f := by
        intro hcc
        exact hgf (joinPath_inj _ _ _ _ hng hf hcc).2
      cases hue2 : w.pathExists (joinPath (user_desktop w) g) <;>
        cases hpe : w.pathExists (joinPath (public_desktop w) g) <;>
          simp [hue2, hpe, List.count_append, List.count_cons, ihh, hug, hpub, hgf]

/-- Same as `count_probes_user` for the public-desktop path. -/
theorem count_probes_public (w : World) (fs : List String) (f : String)
    (hne : user_desktop w ≠ public_desktop w)
    (hnb : ∀ g ∈ fs, ('\\' : Char) ∉ g.data)
    (hf : ('\\' : Char) ∉ f.data)
    (hp : w.pathExists (joinPath (public_desktop w) f) = true) :
    (probes w fs).count (joinPath (public_desktop w) f) = fs.count f := by
  induction fs with
  | nil => simp [probes]
  | cons g fs ih =>
    have hng : ('\\' : Char) ∉ g.data := hnb g (by simp)
    have ihh := ih (fun x hx => hnb x (by simp [hx]))
    have husr : joinPath (user_desktop w) g ≠ joinPath (public_desktop w) f := by
      intro hcc
      exact hne (joinPath_inj _ _ _ _ hng hf hcc).1
    simp only [probes, desktops, List.filterMap_cons, List.filterMap_nil]
    by_cases hgf : g = f
    · subst hgf
      cases hue2 : w.pathExists (joinPath (user_desktop w) g) <;>
        simp [hue2, hp, List.count_append, List.count_cons, ihh, husr]
    · have hpg : joinPath (public_desktop w) g ≠ joinPath (public_desktop w) f := by
        intro hcc
        exact hgf (joinPath_inj _ _ _ _ hng hf hcc).2
      cases hue2 : w.pathExists (joinPath (user_desktop w) g) <;>
        cases hpe : w.pathExists (joinPath (public_desktop w) g) <;>
          simp [hue2, hpe, List.count_append, List.count_cons, ihh, husr, hpg, hgf]

/-! ## Suffix lemmas -/

theorem endswith_iff (s suf : String) : endswith s suf = true ↔ suf.data <:+ s.data := by
  unfold endswith
  exact List.isSuffixOf_iff_suffix

theorem endswith_joinPath (d f suf : String) (h : endswith f suf = true) :
    endswith (joinPath d f) suf = true := by
  rw [endswith_iff] at h ⊢
  unfold joinPath
  rw [String.data_append]
  exact h.trans (List.suffix_append _ _)

theorem suffix_conflict (s a b : String) (ha : endswith s a = true)
    (hb : endswith s b = true) (hlen : a.data.length ≤ b.data.length) :
    a.data <:+ b.data := by
  rw [endswith_iff] at ha hb
  exact List.suffix_of_suffix_length_le ha hb hlen

theorem lnk_ini_conflict (s : String) (h1 : endswith s ".lnk" = true)
    (h2 : endswith s "desktop.ini" = true) : False :=
  absurd (suffix_conflict s ".lnk" "desktop.ini" h1 h2 (by decide)) (by decide)

theorem url_ini_conflict (s : String) (h1 : endswith s ".url" = true)
    (h2 : endswith s "desktop.ini" = true) : False :=
  absurd (suffix_conflict s ".url" "desktop.ini" h1 h2 (by decide)) (by decide)

theorem lnk_url_conflict (s : String) (h1 : endswith s ".lnk" = true)
    (h2 : endswith s ".url" = true) : False := by
  have h3 := suffix_conflict s ".lnk" ".url" h1 h2 (by decide)
  exact absurd (h3.sublist.eq_of_length (by decide)) (by decide)

/-! ## Extraction and step lemmas -/

theorem isExc_iff {α : Type} (r : PyResult α) :
    isExc r = true ↔ ∃ m, r = PyResult.exc m := by
  cases r <;> simp [isExc]

theorem extract_shortcut_no_icon (w : World) (p : String)
    (h : w.pathExists (resolvedIconPath w p) = false) :
    extract_icon_from_shortcut w p = (PyResult.ok none, []) := by
  unfold extract_icon_from_shortcut
  simp [h]

theorem extract_shortcut_delegates (w : World) (p : String)
    (h : w.pathExists (resolvedIconPath w p) = true) :
    extract_icon_from_shortcut w p = extract_icon_from_file w (resolvedIconPath w p) := by
  unfold extract_icon_from_shortcut
  simp [h]

theorem extract_url_no_icon (w : World) (p : String)
    (h : w.urlIcon p = none ∨ w.urlIcon p = some none) :
    extract_icon_from_url w p = (PyResult.ok none, []) := by
  unfold extract_icon_from_url
  rcases h with h | h <;> rw [h]

theorem stepIcon_none_of_not_exists (w : World) (f p : String)
    (hex : w.pathExists p = false) : stepIcon w f p = none := by
  simp [stepIcon, hex]

theorem stepUnsortable_false_of_not_exists (w : World) (f p : String)
    (hex : w.pathExists p = false) : stepUnsortable w f p = false := by
  simp [stepUnsortable, hex]

theorem stepUnsortable_false_of_lnk (w : World) (f p : String)
    (hlnk : endswith f ".lnk" = true) : stepUnsortable w f p = false := by
  simp [stepUnsortable, hlnk]

theorem stepUnsortable_false_of_url (w : World) (f p : String)
    (hurl : endswith f ".url" = true) : stepUnsortable w f p = false := by
  simp [stepUnsortable, hurl]

theorem stepIcon_none_of_lnk_not_some (w : World) (f p : String)
    (hlnk : endswith f ".lnk" = true)
    (h : ∀ v, (extract_icon_from_shortcut w p).1 ≠ PyResult.ok (some v)) :
    stepIcon w f p = none := by
  unfold stepIcon
  by_cases hex : w.pathExists p = false
  · simp [hex]
  · simp only [hex, if_false, hlnk, if_true]
    cases hres : (extract_icon_from_shortcut w p).1 with
    | ok v =>
      cases v with
      | none => rfl
      | some img => exact absurd hres (h img)
    | exc m => rfl

theorem stepIcon_none_of_url_not_some (w : World) (f p : String)
    (hlnk : endswith f ".lnk" = false) (hurl : endswith f ".url" = true)
    (h : ∀ v, (extract_icon_from_url w p).1 ≠ PyResult.ok (some v)) :
    stepIcon w f p = none := by
  unfold stepIcon
  by_cases hex : w.pathExists p = false
  · simp [hex]
  · simp only [hex, if_false, hlnk, Bool.false_eq_true, hurl, if_true]
    cases hres : (extract_icon_from_url w p).1 with
    | ok v =>
      cases v with
      | none => rfl
      | some img => exact absurd hres (h img)
    | exc m => rfl

theorem stepLog_some_of_exc_lnk (w : World) (f p m : String)
    (hex : w.pathExists p = true) (hlnk : endswith f ".lnk" = true)
    (hres : (extract_icon_from_shortcut w p).1 = PyResult.exc m) :
    stepLog w f p = some (pyError p m) := by
  simp [stepLog, hex, hlnk, hres]

theorem stepLog_some_of_exc_url (w : World) (f p m : String)
    (hex : w.pathExists p = true) (hlnk : endswith f ".lnk" = false)
    (hurl : endswith f ".url" = true)
    (hres : (extract_icon_from_url w p).1 = PyResult.exc m) :
    stepLog w f p = some (pyError p m) := by
  simp [stepLog, hex, hlnk, hurl, hres]

theorem stepIcon_branches (w : World) (f p : String)
    (h : stepIcon w f p ≠ none) :
    w.pathExists p = true ∧
      (endswith f ".lnk" = true ∨ endswith f ".url" = true) := by
  unfold stepIcon at h
  by_cases hex : w.pathExists p = false
  · simp [hex] at h
  · refine ⟨by cases hcc : w.pathExists p; exact absurd hcc hex; rfl, ?_⟩
    cases hlnk : endswith f ".lnk" with
    | true => exact Or.inl rfl
    | false =>
      cases hurl : endswith f ".url" with
      | true => exact Or.inr rfl
      | false => simp [hex, hlnk, hurl] at h

/-! ## Concrete environments used as witnesses and counterexamples -/

/-- A base environment: empty desktops, no existing paths, bare oracles. -/
def trivWorld : World where
  extractIconEx := fun _ => ([], [])
  screenDC := 1
  memDCOf := fun _ => 2
  bitmapOf := fun _ => 3
  drawFails := fun _ => false
  drawMsg := "draw failed"
  bitsFail := fun _ => false
  bitsMsg := "bits failed"
  imageOf := fun b => b
  pngOf := fun i => i
  pathExists := fun _ => false
  link := fun _ => ⟨"", ""⟩
  urlIcon := fun _ => none
  userProfile := "C:\\U"
  publicDir := "C:\\P"
  listUser := []
  listPublic := []

def pathA : String := "C:\\U\\Desktop\\a.lnk"
def pathC : String := "C:\\U\\Desktop\\c.url"

/-- A user desktop holding a single `.lnk` whose declared icon path and
target path are both missing from disk. -/
def wC1 : World :=
  { trivWorld with
    listUser := ["a.lnk"]
    pathExists := fun q => q == pathA
    link := fun _ => ⟨"C:\\gone.exe,3", "C:\\tgt.exe"⟩ }

/-- A user desktop holding both unresolvable-icon scenarios: a `.lnk` whose
declared icon path and target path are missing from disk, and a `.url` with
no `InternetShortcut` section. -/
def wC1b : World :=
  { trivWorld with
    listUser := ["a.lnk", "c.url"]
    pathExists := fun q => q == pathA || q == pathC
    link := fun _ => ⟨"C:\\gone.exe,3", "C:\\tgt.exe"⟩
    urlIcon := fun _ => none }

def pathU : String := "C:\\U\\Desktop\\A.txt"
def pathP : String := "C:\\P\\Desktop\\A.txt"

/-- The same file name on both desktops, with every path existing. -/
def wC2 : World :=
  { trivWorld with
    listUser := ["A.txt"]
    listPublic := ["A.txt"]
    pathExists := fun _ => true }

/-- An icon-bearing file whose `GetBitmapBits` call raises mid-pipeline. -/
def wC3 : World :=
  { trivWorld with
    extractIconEx := fun _ => ([7], [])
    bitsFail := fun _ => true }

def pathB : String := "C:\\U\\Desktop\\b.lnk"

/-- A `.lnk` whose resolved icon file exists but whose `DrawIconEx` call
raises, so the per-file processing raises an exception. -/
def wC10 : World :=
  { trivWorld with
    listUser := ["b.lnk"]
    pathExists := fun q => q == pathB || q == "C:\\ico.exe"
    link := fun _ => ⟨"C:\\ico.exe,0", ""⟩
    extractIconEx := fun _ => ([7], [])
    drawFails := fun _ => true }

/-! ## Claims -/

/-- C1, counterexample: in `wC1` the single `.lnk` has both its declared
icon path and its target missing, yet `get_icons` leaves the UnsortableList
empty — the path gets no UnsortableList entry, refuting "exactly one
UnsortableList entry". -/
theorem c1_counterexample :
    dlookup (get_icons wC1).icons pathA = none ∧
    (get_icons wC1).unsortable = [] ∧
    (get_icons wC1).unsortable.count pathA ≠ 1 := by decide

/-- C1 (amended): a scanned desktop entry for which no icon could be
resolved — a `.lnk` whose declared icon path and target path are both
missing from disk, or a `.url` lacking an `InternetShortcut` section or
lacking an `IconFile` key — yields no catalog entry and **no** UnsortableList
entry: the path is silently dropped from both outputs. -/
theorem c1_amended (w : World) (p : String)
    (H : ∀ f ∈ files w, ∀ d ∈ desktops w, joinPath d f = p →
      (endswith f ".lnk" = true ∧
        w.pathExists (w.link p).targetPath = false ∧
        w.pathExists (partitionComma (w.link p).iconLocation).1 = false) ∨
      (endswith f ".url" = true ∧
        (w.urlIcon p = none ∨ w.urlIcon p = some none))) :
    dlookup (get_icons w).icons p = none ∧ p ∉ (get_icons w).unsortable := by
  constructor
  · show dlookup (runFiles w initState (files w)).icons p = none
    refine runFiles_dlookup_none w (files w) initState p rfl ?_
    intro f hf d hd hj
    rcases H f hf d hd hj with ⟨hlnk, ht, hi⟩ | ⟨hurl, hui⟩
    · have hres : w.pathExists (resolvedIconPath w p) = false := by
        unfold resolvedIconPath
        by_cases h0 : (partitionComma (w.link p).iconLocation).1 = ""
        · simp only [h0, if_true]; exact ht
        · simp only [h0, if_false]; exact hi
      have hok : extract_icon_from_shortcut w p = (PyResult.ok none, []) :=
        extract_shortcut_no_icon w p hres
      refine stepIcon_none_of_lnk_not_some w f p hlnk ?_
      intro v hv
      rw [hok] at hv
      cases hv
    · have hlnkf : endswith f ".lnk" = false := by
        cases hc : endswith f ".lnk"
        · rfl
        · exact (lnk_url_conflict f hc hurl).elim
      have hok : extract_icon_from_url w p = (PyResult.ok none, []) :=
        extract_url_no_icon w p hui
      refine stepIcon_none_of_url_not_some w f p hlnkf hurl ?_
      intro v hv
      rw [hok] at hv
      cases hv
  · show p ∉ (runFiles w initState (files w)).unsortable
    refine runFiles_unsortable_not_mem w (files w) initState p (by simp [initState]) ?_
    intro f hf d hd hj
    rcases H f hf d hd hj with ⟨hlnk, _, _⟩ | ⟨hurl, _⟩
    · exact stepUnsortable_false_of_lnk w f p hlnk
    · exact stepUnsortable_false_of_url w f p hurl

/-- Witness for C1 (amended) at the concrete environment `wC1b`, exercising
both the `.lnk` scenario (at `pathA`) and the `.url` scenario (at `pathC`). -/
theorem c1_amended_witness :
    (dlookup (get_icons wC1b).icons pathA = none ∧
      pathA ∉ (get_icons wC1b).unsortable) ∧
    (dlookup (get_icons wC1b).icons pathC = none ∧
      pathC ∉ (get_icons wC1b).unsortable) :=
  ⟨c1_amended wC1b pathA (by decide), c1_amended wC1b pathC (by decide)⟩

/-- C2, counterexample: with `A.txt` on both desktops and both paths
existing, `get_icons` processes the file four times (each of its two full
paths twice), not exactly twice. -/
theorem c2_counterexample :
    (get_icons wC2).processed = [pathU, pathP, pathU, pathP] ∧
    (get_icons wC2).processed.length ≠ 2 := by decide

/-- C2 (amended): a file name present on both desktops (once in each
directory listing, with listing entries separator-free and the two desktop
directories distinct) occurs twice in the combined listing and each
occurrence probes both directories, so when both its full paths exist the
file is processed exactly four times — each of its two full paths twice.
The catalog keys stay unique, any catalog key other than the two full paths
comes from a different file name (so the file yields at most two distinct
catalog keys, the two full paths), and a path that does not exist is never
processed (silently skipped, no error). -/
theorem c2_amended (w : World) (f : String)
    (hne : user_desktop w ≠ public_desktop w)
    (hnb : ∀ g ∈ files w, ('\\' : Char) ∉ g.data)
    (hcu : w.listUser.count f = 1) (hcp : w.listPublic.count f = 1)
    (hu : w.pathExists (joinPath (user_desktop w) f) = true)
    (hp : w.pathExists (joinPath (public_desktop w) f) = true) :
    (get_icons w).processed.count (joinPath (user_desktop w) f) = 2 ∧
    (get_icons w).processed.count (joinPath (public_desktop w) f) = 2 ∧
    ((get_icons w).icons.map Prod.fst).Nodup ∧
    (∀ k ∈ (get_icons w).icons.map Prod.fst,
      k ≠ joinPath (user_desktop w) f → k ≠ joinPath (public_desktop w) f →
      ∃ g ∈ files w, g ≠ f ∧ ∃ d ∈ desktops w, k = joinPath d g) ∧
    (∀ q, w.pathExists q = false → q ∉ (get_icons w).processed) := by
  have hmemf : f ∈ files w := by
    have hm : f ∈ w.listUser := by
      by_contra hc
      rw [List.count_eq_zero.2 hc] at hcu
      cases hcu
    exact List.mem_append.2 (Or.inl hm)
  have hff : ('\\' : Char) ∉ f.data := hnb f hmemf
  have hcf : (files w).count f = 2 := by
    unfold files
    rw [List.count_append, hcu, hcp]
  have hproc : (get_icons w).processed = probes w (files w) := by
    show (runFiles w initState (files w)).processed = _
    rw [runFiles_processed]
    simp [initState]
  refine ⟨?_, ?_, ?_, ?_, ?_⟩
  · rw [hproc, count_probes_user w (files w) f hne hnb hff hu, hcf]
  · rw [hproc, count_probes_public w (files w) f hne hnb hff hp, hcf]
  · show ((runFiles w initState (files w)).icons.map Prod.fst).Nodup
    exact runFiles_keys_nodup w (files w) initState (by simp [initState])
  · intro k hk hku hkp
    rcases runFiles_keys_sub w (files w) initState k hk with
      hh | ⟨g, hg, d, hd, hkj, _⟩
    · simp [initState] at hh
    · refine ⟨g, hg, ?_, d, hd, hkj⟩
      intro hgf
      subst hgf
      have hd2 : d = user_desktop w ∨ d = public_desktop w := by
        simpa [desktops] using hd
      rcases hd2 with hd2 | hd2
      · exact hku (by rw [hkj, hd2])
      · exact hkp (by rw [hkj, hd2])
  · intro q hq hmem
    rw [hproc] at hmem
    have h3 := probes_exists w (files w) q hmem
    rw [hq] at h3
    cases h3

/-- Witness for C2 (amended) at the concrete environment `wC2`. -/
theorem c2_amended_witness :
    (get_icons wC2).processed.count (joinPath (user_desktop wC2) "A.txt") = 2 ∧
    (get_icons wC2).processed.count (joinPath (public_desktop wC2) "A.txt") = 2 ∧
    ((get_icons wC2).icons.map Prod.fst).Nodup ∧
    (∀ k ∈ (get_icons wC2).icons.map Prod.fst,
      k ≠ joinPath (user_desktop wC2) "A.txt" →
      k ≠ joinPath (public_desktop wC2) "A.txt" →
      ∃ g ∈ files wC2, g ≠ "A.txt" ∧ ∃ d ∈ desktops wC2, k = joinPath d g) ∧
    (∀ q, wC2.pathExists q = false → q ∉ (get_icons wC2).processed) :=
  c2_amended wC2 "A.txt" (by decide) (by decide) (by decide) (by decide)
    (by decide) (by decide)

/-- C3: in `wC3` the bitmap-bits read raises after the icon handle, screen
DC, memory DC and bitmap have all been acquired; the call returns with the
exception and its event trace contains the four acquisitions and **no**
release — the cleanup calls are skipped on the error path, contradicting the
claimed release-on-every-path contract. -/
theorem c3_resource_leak :
    extract_icon_from_file wC3 "C:\\app.exe" =
      (PyResult.exc "bits failed",
       [Ev.acquireIcon 7, Ev.acquireDC 1, Ev.acquireMemDC 2, Ev.acquireBitmap 3]) ∧
    ((extract_icon_from_file wC3 "C:\\app.exe").2.all fun e => !isRelease e) = true := by
  decide

/-- C6: a path ending in `desktop.ini` is never a catalog key (keys come
only from `.lnk`/`.url` names, whose joined paths cannot also end in
`desktop.ini`) and never an UnsortableList entry (explicitly filtered). -/
theorem c6_desktop_ini (w : World) (p : String)
    (h : endswith p "desktop.ini" = true) :
    p ∉ (get_icons w).icons.map Prod.fst ∧ p ∉ (get_icons w).unsortable := by
  constructor
  · intro hk
    rcases runFiles_keys_sub w (files w) initState p hk with
      hh | ⟨f, _, d, _, hpj, hstep⟩
    · simp [initState] at hh
    · rcases (stepIcon_branches w f p hstep).2 with hl | hu2
      · have hl2 : endswith p ".lnk" = true := by
          rw [hpj]; exact endswith_joinPath d f ".lnk" hl
        exact lnk_ini_conflict p hl2 h
      · have hu3 : endswith p ".url" = true := by
          rw [hpj]; exact endswith_joinPath d f ".url" hu2
        exact url_ini_conflict p hu3 h
  · intro hq
    rcases runFiles_unsortable_sub w (files w) initState p hq with
      hh | ⟨f, _, d, _, hpj, hstep⟩
    · simp [initState] at hh
    · have : endswith p "desktop.ini" = false := by
        simp only [stepUnsortable, Bool.and_eq_true, Bool.not_eq_true'] at hstep
        exact hstep.2
      rw [h] at this
      cases this

/-- Witness for C6 at a concrete path ending in `desktop.ini`. -/
theorem c6_desktop_ini_witness :
    "C:\\U\\Desktop\\desktop.ini" ∉ (get_icons trivWorld).icons.map Prod.fst ∧
    "C:\\U\\Desktop\\desktop.ini" ∉ (get_icons trivWorld).unsortable :=
  c6_desktop_ini trivWorld "C:\\U\\Desktop\\desktop.ini" (by decide)

/-- The per-file processing of path `p` under file name `f` raises a Python
exception (caught by the per-file guard): the name dispatches to the `.lnk`
or `.url` extractor and that extractor raises. -/
def raisesFor (w : World) (f p : String) : Prop :=
  (endswith f ".lnk" = true ∧ isExc (extract_icon_from_shortcut w p).1 = true) ∨
  (endswith f ".lnk" = false ∧ endswith f ".url" = true ∧
    isExc (extract_icon_from_url w p).1 = true)

instance (w : World) (f p : String) : Decidable (raisesFor w f p) := by
  unfold raisesFor
  infer_instance

/-- C10: if every processing of a path raises inside the per-file guard (and
the path is processed at least once), then the error line is printed and the
path appears in neither the icon catalog nor the UnsortableList. -/
theorem c10_exception_guard (w : World) (p : String)
    (H : ∀ f ∈ files w, ∀ d ∈ desktops w, joinPath d f = p →
      w.pathExists p = true ∧ raisesFor w f p)
    (hocc : ∃ f ∈ files w, ∃ d ∈ desktops w, joinPath d f = p) :
    (∃ m, pyError p m ∈ (get_icons w).log) ∧
    dlookup (get_icons w).icons p = none ∧
    p ∉ (get_icons w).unsortable := by
  refine ⟨?_, ?_, ?_⟩
  · obtain ⟨f, hf, d, hd, hj⟩ := hocc
    obtain ⟨hex, hr⟩ := H f hf d hd hj
    rcases hr with ⟨hlnk, hexc⟩ | ⟨hlnkf, hurl, hexc⟩
    · obtain ⟨m, hm⟩ := (isExc_iff _).1 hexc
      refine ⟨m, ?_⟩
      show pyError p m ∈ (runFiles w initState (files w)).log
      refine runFiles_log_of_occur w (files w) initState f d _ hf hd ?_
      rw [hj]
      exact stepLog_some_of_exc_lnk w f p m hex hlnk hm
    · obtain ⟨m, hm⟩ := (isExc_iff _).1 hexc
      refine ⟨m, ?_⟩
      show pyError p m ∈ (runFiles w initState (files w)).log
      refine runFiles_log_of_occur w (files w) initState f d _ hf hd ?_
      rw [hj]
      exact stepLog_some_of_exc_url w f p m hex hlnkf hurl hm
  · show dlookup (runFiles w initState (files w)).icons p = none
    refine runFiles_dlookup_none w (files w) initState p rfl ?_
    intro f hf d hd hj
    obtain ⟨hex, hr⟩ := H f hf d hd hj
    rcases hr with ⟨hlnk, hexc⟩ | ⟨hlnkf, hurl, hexc⟩
    · obtain ⟨m, hm⟩ := (isExc_iff _).1 hexc
      refine stepIcon_none_of_lnk_not_some w f p hlnk ?_
      intro v hv
      rw [hm] at hv
      cases hv
    · obtain ⟨m, hm⟩ := (isExc_iff _).1 hexc
      refine stepIcon_none_of_url_not_some w f p hlnkf hurl ?_
      intro v hv
      rw [hm] at hv
      cases hv
  · show p ∉ (runFiles w initState (files w)).unsortable
    refine runFiles_unsortable_not_mem w (files w) initState p (by simp [initState]) ?_
    intro f hf d hd hj
    obtain ⟨_, hr⟩ := H f hf d hd hj
    rcases hr with ⟨hlnk, _⟩ | ⟨_, hurl, _⟩
    · exact stepUnsortable_false_of_lnk w f p hlnk
    · exact stepUnsortable_false_of_url w f p hurl

/-- Witness for C10 at the concrete environment `wC10`. -/
theorem c10_exception_guard_witness :
    (∃ m, pyError pathB m ∈ (get_icons wC10).log) ∧
    dlookup (get_icons wC10).icons pathB = none ∧
    pathB ∉ (get_icons wC10).unsortable :=
  c10_exception_guard wC10 pathB (by decide) (by decide)

/-! ## Hue and sorting claims -/

theorem sum_map_const {α : Type} (l : List α) (g : α → ℚ) (q : ℚ)
    (h : ∀ x ∈ l, g x = q) : (l.map g).sum = l.length * q := by
  induction l with
  | nil => simp
  | cons a t ih =>
    simp only [List.map_cons, List.sum_cons, List.length_cons]
    rw [h a (by simp), ih (fun x hx => h x (by simp [hx]))]
    push_cast
    ring

theorem avgCh_flat (img : Img) (C : Rgb) (ch : Rgb → Nat)
    (hflat : ∀ c ∈ pixels img, c = C) (hpos : 0 < pixelCount img) :
    avgCh img ch = (ch C : ℚ) := by
  unfold avgCh
  rw [sum_map_const (pixels img) _ (ch C : ℚ) (fun x hx => by rw [hflat x hx])]
  unfold pixelCount
  have hne : ((pixels img).length : ℚ) ≠ 0 := by
    exact_mod_cast Nat.pos_iff_ne_zero.1 hpos
  rw [mul_comm]
  exact mul_div_cancel_right₀ _ hne

theorem rgbToHsvHue_gray (v : ℚ) : rgbToHsvHue v v v = 0 := by
  unfold rgbToHsvHue
  simp

/-- C5: for a flat image every pixel is the same color, so the 1×1
area-average equals that color and the returned value is exactly the hue
component of its RGB→HSV conversion; a grayscale flat color yields hue 0. -/
theorem c5_flat_hue (img : Img) (r g b : Nat)
    (hflat : ∀ row ∈ img, ∀ c ∈ row, c = (r, g, b))
    (hpos : 0 < pixelCount img) :
    get_average_hue img = rgbToHsvHue r g b ∧
    (r = g → g = b → get_average_hue img = 0) := by
  have hpx : ∀ c ∈ pixels img, c = (r, g, b) := by
    intro c hc
    rcases List.mem_flatMap.1 hc with ⟨row, hrow, hcr⟩
    exact hflat row hrow c hcr
  have h1 : get_average_hue img = rgbToHsvHue r g b := by
    unfold get_average_hue
    rw [avgCh_flat img (r, g, b) _ hpx hpos, avgCh_flat img (r, g, b) _ hpx hpos,
      avgCh_flat img (r, g, b) _ hpx hpos]
  refine ⟨h1, ?_⟩
  intro hrg hgb
  subst hrg
  subst hgb
  rw [h1]
  exact rgbToHsvHue_gray _

/-- Witness for C5 at a concrete 1×1 flat image. -/
theorem c5_flat_hue_witness :
    get_average_hue [[(10, 20, 30)]] = rgbToHsvHue 10 20 30 ∧
    ((10 : Nat) = 20 → (20 : Nat) = 30 → get_average_hue [[(10, 20, 30)]] = 0) :=
  c5_flat_hue [[(10, 20, 30)]] 10 20 30 (by decide) (by decide)

/-- C4: `sort_icons_by_color` returns a permutation of the catalog entries,
ordered by nondecreasing hue, and the sort is stable: two entries with the
same hue keep their relative insertion order. -/
theorem c4_stable_hue_sort (icons : List (String × Img)) :
    List.Perm (sort_icons_by_color icons) icons ∧
    (sort_icons_by_color icons).Pairwise
      (fun a b => get_average_hue a.2 ≤ get_average_hue b.2) ∧
    (∀ a b : String × Img, List.Sublist [a, b] icons →
      get_average_hue a.2 = get_average_hue b.2 →
      List.Sublist [a, b] (sort_icons_by_color icons)) := by
  have trans : ∀ a b c : String × Img,
      decide (get_average_hue a.2 ≤ get_average_hue b.2) = true →
      decide (get_average_hue b.2 ≤ get_average_hue c.2) = true →
      decide (get_average_hue a.2 ≤ get_average_hue c.2) = true := by
    intro a b c hab hbc
    simp only [decide_eq_true_iff] at hab hbc ⊢
    exact le_trans hab hbc
  have total : ∀ a b : String × Img,
      (decide (get_average_hue a.2 ≤ get_average_hue b.2) ||
        decide (get_average_hue b.2 ≤ get_average_hue a.2)) = true := by
    intro a b
    simp only [Bool.or_eq_true, decide_eq_true_iff]
    exact le_total _ _
  refine ⟨List.mergeSort_perm icons _, ?_, ?_⟩
  · have hs := List.sorted_mergeSort trans total icons
    exact hs.imp (fun h => of_decide_eq_true h)
  · intro a b hsub heq
    exact List.pair_sublist_mergeSort trans total
      (by simp only [decide_eq_true_iff]; exact le_of_eq heq) hsub

def imgA : Img := [[(5, 5, 5)]]
def imgB : Img := [[(9, 9, 9)]]
def lC4 : List (String × Img) := [("A", imgA), ("B", imgB)]

/-- Witness for C4: two equal-hue (grayscale) entries keep their relative
order through the sort. -/
theorem c4_stable_hue_sort_witness :
    List.Perm (sort_icons_by_color lC4) lC4 ∧
    List.Sublist [("A", imgA), ("B", imgB)] (sort_icons_by_color lC4) := by
  have hA : get_average_hue imgA = 0 := by
    unfold get_average_hue
    rw [avgCh_flat imgA (5, 5, 5) _ (by decide) (by decide),
      avgCh_flat imgA (5, 5, 5) _ (by decide) (by decide),
      avgCh_flat imgA (5, 5, 5) _ (by decide) (by decide)]
    exact rgbToHsvHue_gray _
  have hB : get_average_hue imgB = 0 := by
    unfold get_average_hue
    rw [avgCh_flat imgB (9, 9, 9) _ (by decide) (by decide),
      avgCh_flat imgB (9, 9, 9) _ (by decide) (by decide),
      avgCh_flat imgB (9, 9, 9) _ (by decide) (by decide)]
    exact rgbToHsvHue_gray _
  exact ⟨(c4_stable_hue_sort lC4).1,
    (c4_stable_hue_sort lC4).2.2 ("A", imgA) ("B", imgB) (List.Sublist.refl _)
      (hA.trans hB.symm)⟩

/-! ## Shortcut-resolution claims -/

/-- C7: the `.lnk` icon location is parsed as `<path>,<index>`; a nonempty
path portion is used as is, an empty one falls back to the target path; an
existing resolved path delegates to `extract_icon_from_file`, a missing one
yields no icon; and the index defaults to 0 when absent or non-numeric. -/
theorem c7_shortcut_resolution (w : World) (p : String) :
    ((partitionComma (w.link p).iconLocation).1 ≠ "" →
      resolvedIconPath w p = (partitionComma (w.link p).iconLocation).1) ∧
    ((partitionComma (w.link p).iconLocation).1 = "" →
      resolvedIconPath w p = (w.link p).targetPath) ∧
    (w.pathExists (resolvedIconPath w p) = true →
      extract_icon_from_shortcut w p =
        extract_icon_from_file w (resolvedIconPath w p)) ∧
    (w.pathExists (resolvedIconPath w p) = false →
      (extract_icon_from_shortcut w p).1 = PyResult.ok none) ∧
    (isdigitStr (partitionComma (w.link p).iconLocation).2 = false →
      parseIconIndex (w.link p).iconLocation = 0) := by
  refine ⟨?_, ?_, ?_, ?_, ?_⟩
  · intro h
    unfold resolvedIconPath
    simp [h]
  · intro h
    unfold resolvedIconPath
    simp [h]
  · intro h
    exact extract_shortcut_delegates w p h
  · intro h
    rw [extract_shortcut_no_icon w p h]
  · intro h
    unfold parseIconIndex
    simp [h]

/-- A link whose icon location has no comma (index absent) and whose icon
path does not exist. -/
def wC7 : World := { trivWorld with link := fun _ => ⟨"abc", "t"⟩ }

/-- Witness for C7 at the concrete environment `wC7`. -/
theorem c7_shortcut_resolution_witness :
    resolvedIconPath wC7 "s.lnk" = (partitionComma (wC7.link "s.lnk").iconLocation).1 ∧
    (extract_icon_from_shortcut wC7 "s.lnk").1 = PyResult.ok none ∧
    parseIconIndex (wC7.link "s.lnk").iconLocation = 0 :=
  ⟨(c7_shortcut_resolution wC7 "s.lnk").1 (by decide),
   (c7_shortcut_resolution wC7 "s.lnk").2.2.2.1 (by decide),
   (c7_shortcut_resolution wC7 "s.lnk").2.2.2.2 (by decide)⟩

/-- C8: the extracted icon does not depend on the numeric index after the
comma — two `.lnk` inputs whose icon locations share the portion before the
first comma (and whose targets agree) extract the same icon, whatever the
index portions are. -/
theorem c8_index_independent (w : World) (p q : String)
    (h1 : (partitionComma (w.link p).iconLocation).1 =
      (partitionComma (w.link q).iconLocation).1)
    (h2 : (w.link p).targetPath = (w.link q).targetPath) :
    extract_icon_from_shortcut w p = extract_icon_from_shortcut w q := by
  have hres : resolvedIconPath w p = resolvedIconPath w q := by
    unfold resolvedIconPath
    rw [h1, h2]
  by_cases hex : w.pathExists (resolvedIconPath w q) = true
  · rw [extract_shortcut_delegates w p (by rw [hres]; exact hex),
      extract_shortcut_delegates w q hex, hres]
  · have hexf : w.pathExists (resolvedIconPath w q) = false := by
      cases hc : w.pathExists (resolvedIconPath w q)
      · rfl
      · exact absurd hc hex
    rw [extract_shortcut_no_icon w p (by rw [hres]; exact hexf),
      extract_shortcut_no_icon w q hexf]

/-- Two links identical except for the icon index (3 vs 700). -/
def wC8 : World :=
  { trivWorld with
    link := fun s =>
      if s == "p.lnk" then ⟨"C:\\x.exe,3", "T"⟩ else ⟨"C:\\x.exe,700", "T"⟩
    pathExists := fun q => q == "C:\\x.exe"
    extractIconEx := fun _ => ([9], []) }

/-- Witness for C8 at the concrete environment `wC8`. -/
theorem c8_index_independent_witness :
    extract_icon_from_shortcut wC8 "p.lnk" = extract_icon_from_shortcut wC8 "q.lnk" :=
  c8_index_independent wC8 "p.lnk" "q.lnk" (by decide) (by decide)

/-- C9: `get_icon_handle` returns the first large icon handle when large
icons exist, else the first small icon handle when small icons exist, else
no handle. -/
theorem c9_icon_handle (w : World) (p : String) (l s : List Nat)
    (h : w.extractIconEx p = (l, s)) :
    (l ≠ [] → get_icon_handle w p = l.head?) ∧
    (l = [] → s ≠ [] → get_icon_handle w p = s.head?) ∧
    (l = [] → s = [] → get_icon_handle w p = none) := by
  unfold get_icon_handle
  rw [h]
  refine ⟨?_, ?_, ?_⟩
  · intro hl
    cases l with
    | nil => exact absurd rfl hl
    | cons a t => rfl
  · intro hl hs
    subst hl
    cases s with
    | nil => exact absurd rfl hs
    | cons a t => rfl
  · intro hl hs
    subst hl
    subst hs
    rfl

/-- Two large icons and one small icon. -/
def wC9 : World := { trivWorld with extractIconEx := fun _ => ([4, 8], [5]) }

/-- Witness for C9 at the concrete environment `wC9`. -/
theorem c9_icon_handle_witness : get_icon_handle wC9 "e.exe" = [4, 8].head? :=
  (c9_icon_handle wC9 "e.exe" [4, 8] [5] rfl).1 (by decide)

end RD
